import Mathlib

/-
Shallow embedding of the MDX dictionary reader of this repository.

The repository has two parser variants:
  * `src/main.rs` — a nom-based streaming parser (module `mdict::mdx`); this is
    the code compiled into the binary (`main` calls `mdict::mdx::parse`).
  * `src/mdict.rs` — a binread-based parser (standalone file, not declared as a
    module of the crate); it additionally contains the record-block phase and
    the `search`/`record` operations.

Bytes are modelled as `List Nat` (each element < 256 on well-formed input).
Rust `String` values are modelled as their code-unit sequences (`List Nat`);
UTF-8 / UTF-16 validation (`String::from_utf8(..).unwrap_or_default()` etc.)
is injective on the valid inputs the claims concern and is not re-modelled.
External crates (flate2 zlib inflate, minilzo, ripemd128, quick_xml) are
abstracted as function parameters collected in `Ext`; every theorem below is
either universally quantified over them or instantiates them concretely.
Machine integers (u8/u32/u64) stay in `Nat`; wrap-around is written out with
`% 256` etc. exactly where the Rust code truncates.
-/

namespace Mdict

abbrev Bytes := List Nat

/-- Model of a Rust `String` as its sequence of code units. -/
abbrev Str := List Nat

/-- `DictMeta` (identical in src/main.rs lines 45-79 and src/mdict.rs lines
58-92).  The two `f64` version fields are modelled as rationals; the claims
only use the comparison with `2.0`, which is exact. -/
structure DictMeta where
  generated_by_engine_version : Rat
  required_engine_version : Rat
  format : Str
  key_case_sensitive : Str
  strip_key : Option Str
  encrypted : Str
  register_by : Option Str
  description : Str
  title : Str
  encoding : Str
  creation_date : Option Str
  compact : Str
  compat : Str
  left2right : Str
  data_source_format : Str
  style_sheet : Str
deriving DecidableEq

/-- `DictMeta::is_ver2` (src/main.rs lines 82-84):
`self.required_engine_version >= 2.0`. -/
def is_ver2 (m : DictMeta) : Bool := decide (2 ≤ m.required_engine_version)

/-- The byte string "UTF-8", used for `meta.encoding == "UTF-8"`. -/
def utf8Lit : Str := [85, 84, 70, 45, 56]

/-- `meta.encoding == "UTF-8"` (src/main.rs line 186 and line 317). -/
def is_utf8 (m : DictMeta) : Bool := decide (m.encoding = utf8Lit)

/-- External library functions used by the source, abstracted:
ripemd128 (crate ripemd128), zlib inflate (crate flate2, `None` = error),
LZO1X decompression with a target size (crate minilzo_rs), and the
UTF-16-decode + quick_xml deserialization of the metadata XML. -/
structure Ext where
  ripemd128 : Bytes → Bytes
  zlibInflate : Bytes → Option Bytes
  lzoDecompress : Bytes → Nat → Option Bytes
  deXml : List Nat → Option DictMeta

/-- Outcome of running a parser: success with remaining input, a recoverable
error (nom `Err`/binread `Err`, surfacing to the caller through `?`), or a
Rust `panic!`/`todo!` process abort carrying a code (for `content_block`'s
unknown-type panic the code is the offending type value; for `todo!` it is 0). -/
inductive PResult (α : Type) where
  | ok (rest : Bytes) (val : α)
  | err
  | panic (code : Nat)
deriving DecidableEq

/-- A parser over a byte stream. -/
def M (α : Type) : Type := Bytes → PResult α

def ppure {α : Type} (a : α) : M α := fun in_ => .ok in_ a

def pbind {α β : Type} (p : M α) (f : α → M β) : M β := fun in_ =>
  match p in_ with
  | .ok rest v => f v rest
  | .err => .err
  | .panic n => .panic n

/-- Read one byte (`le_u8`/`be_u8`; streaming: fails on empty input). -/
def readByte : M Nat := fun in_ =>
  match in_ with
  | [] => .err
  | b :: rest => .ok rest b

/-- Read exactly `n` bytes. -/
def readN : Nat → M Bytes
  | 0 => ppure []
  | n + 1 =>
      pbind readByte fun b =>
      pbind (readN n) fun bs =>
      ppure (b :: bs)

/-- Big-endian value of a byte sequence. -/
def beVal (bs : Bytes) : Nat := bs.foldl (fun a b => 256 * a + b) 0

/-- Little-endian value of a byte sequence. -/
def leVal (bs : Bytes) : Nat := bs.foldr (fun b a => b + 256 * a) 0

/-- `be_u16`/`be_u32`/`be_u64` (nom, big-endian, n bytes). -/
def beNat (n : Nat) : M Nat := pbind (readN n) fun bs => ppure (beVal bs)

/-- `le_u16`/`le_u32` (nom, little-endian, n bytes). -/
def leNat (n : Nat) : M Nat := pbind (readN n) fun bs => ppure (leVal bs)

/-- `cond_if` (src/main.rs lines 96-113): run `f1` when `cond` else `f2`. -/
def cond_if {α : Type} (c : Bool) (f1 f2 : M α) : M α := if c then f1 else f2

/-- nom `cond`: run the parser only when the flag holds. -/
def condP {α : Type} (c : Bool) (p : M α) : M (Option α) :=
  if c then pbind p fun v => ppure (some v) else ppure none

/-- nom `count`: run a parser exactly `n` times. -/
def countP {α : Type} (p : M α) : Nat → M (List α)
  | 0 => ppure []
  | n + 1 =>
      pbind p fun a =>
      pbind (countP p n) fun as =>
      ppure (a :: as)

/-- Run a parser on a separate buffer, discarding that buffer's leftover and
keeping the outer input (the `let (_, x) = sub_parse(&buf)?` pattern of the
source). -/
def subParse {α : Type} (p : M α) (buf : Bytes) : M α := fun in_ =>
  match p buf with
  | .ok _ v => .ok in_ v
  | .err => .err
  | .panic n => .panic n

/-- `many_till(le_u8, tag(U8NULL))` (src/main.rs lines 187-189): bytes up to
and excluding a null byte, consuming the null; also binread's `NullString`
(src/mdict.rs line 237). -/
def mtn8 : Bytes → PResult Str
  | [] => .err
  | 0 :: rest => .ok rest []
  | b :: rest =>
      match mtn8 rest with
      | .ok r v => .ok r (b :: v)
      | .err => .err
      | .panic n => .panic n

/-- `many_till(le_u16, tag(U16NULL))` (src/main.rs lines 190-192): 16-bit LE
units up to and excluding a `00 00` terminator. -/
def mtn16 : Bytes → PResult Str
  | 0 :: 0 :: rest => .ok rest []
  | a :: b :: rest =>
      match mtn16 rest with
      | .ok r v => .ok r ((a + 256 * b) :: v)
      | .err => .err
      | .panic n => .panic n
  | _ => .err

/-- `mdx_string` (src/main.rs lines 174-194): null-terminated string in the
declared encoding. -/
def mdx_string (utf8 : Bool) : M Str :=
  cond_if utf8 (fun in_ => mtn8 in_) (fun in_ => mtn16 in_)

/-- `mdx_number` (src/main.rs lines 163-169): `be_u64` when v2 else `be_u32`. -/
def mdx_number (isV2 : Bool) : M Nat := cond_if isV2 (beNat 8) (beNat 4)

/-- `KeyBlockHeader` (src/main.rs lines 153-161). -/
structure KeyBlockHeader where
  n_blocks : Nat
  n_entries : Nat
  nb_decompressed : Option Nat
  nb_block_info : Nat
  nb_blocks : Nat
  checksum : Option Nat
deriving DecidableEq

/-- The header part of `key_block` (src/main.rs lines 197-216): six fields via
`mdx_number` / `cond(is_ver2, be_u64)` / `cond(is_ver2, le_u32)`. -/
def key_block_header (isV2 : Bool) : M KeyBlockHeader :=
  pbind (mdx_number isV2) fun n_blocks =>
  pbind (mdx_number isV2) fun n_entries =>
  pbind (condP isV2 (beNat 8)) fun nb_decompressed =>
  pbind (mdx_number isV2) fun nb_block_info =>
  pbind (mdx_number isV2) fun nb_blocks =>
  pbind (condP isV2 (leNat 4)) fun checksum =>
  ppure ⟨n_blocks, n_entries, nb_decompressed, nb_block_info, nb_blocks, checksum⟩

/-- `KeyBlockInfo` (src/main.rs lines 253-260). -/
structure KeyBlockInfo where
  n_entries : Nat
  head : Str
  tail : Str
  nb_compressed : Nat
  nb_decompressed : Nat
deriving DecidableEq

/-- `KeyMap = HashMap<String, u64>` (src/main.rs line 262, src/mdict.rs line
101), modelled as an association list keyed by the headword.  NOTE: the order
of this list records insertion history; the iteration order of the Rust
`HashMap` is unspecified and in particular is not the order of this list. -/
abbrev KeyMap := List (Str × Nat)

/-- `HashMap::insert`: replace the value of an existing key, otherwise add the
binding. -/
def keymapInsert : KeyMap → Str → Nat → KeyMap
  | [], k, v => [(k, v)]
  | e :: rest, k, v =>
      if e.1 = k then (k, v) :: rest else e :: keymapInsert rest k v

/-- `HashMap::get`-style lookup in the model. -/
def lookupKm : KeyMap → Str → Option Nat
  | [], _ => none
  | e :: rest, k => if e.1 = k then some e.2 else lookupKm rest k

/-- `entries.iter().for_each(|entry| keymap.insert(entry.1.clone(), entry.0))`
(src/main.rs lines 245-247; same shape at src/mdict.rs lines 249-252): insert
each parsed `(record_offset, headword)` pair, keyed by the headword. -/
def keymapInsertAll (km : KeyMap) (entries : List (Nat × Str)) : KeyMap :=
  entries.foldl (fun m e => keymapInsert m e.2 e.1) km

/-- `WriteBytesExt::write_u32::<LittleEndian>`: 4 little-endian bytes. -/
def u32le (n : Nat) : Bytes :=
  [n % 256, n / 256 % 256, n / 65536 % 256, n / 16777216 % 256]

/-- `(*b >> 4 | *b << 4) & 0xff` on a `u8` (src/main.rs line 287,
src/mdict.rs line 160): swap the two nibbles. -/
def nibbleSwap (b : Nat) : Nat := ((b >>> 4) ||| ((b <<< 4) % 256)) % 256

/-- The deobfuscation loop of `unzip` (src/main.rs lines 282-293) and of
`parse_key_block_info` (src/mdict.rs lines 158-165): position `i`, feedback
byte `prev` (seeded 0x36 by the callers), output byte
`nibbleSwap(b) ^ prev ^ (i & 0xff) ^ key[i % key.len()]`, and `prev` updated
to the ciphertext byte `b`. -/
def deobAux (key : Bytes) : Nat → Nat → Bytes → Bytes
  | _, _, [] => []
  | prev, i, b :: rest =>
      (((nibbleSwap b) ^^^ prev ^^^ (i % 256)) ^^^ key.getD (i % key.length) 0)
        :: deobAux key b (i + 1) rest

/-- `unzip` (src/main.rs lines 269-304): RIPEMD128 key from
`u32_le(checksum) || u32_le(0x3695)`, XOR/nibble-swap stream with `prev`
seeded to 0x36, then zlib inflate. -/
def unzip (ext : Ext) (in_ : Bytes) (checksum : Nat) : Option Bytes :=
  let key := ext.ripemd128 (u32le checksum ++ u32le 0x3695)
  ext.zlibInflate (deobAux key 0x36 0 in_)

/-- `info_key`/`key_bytes` (src/main.rs lines 311-357): length byte(s), then
that many text units (+1 with a trailing null in v2, which is then dropped by
`truncate(len - 1)`). -/
def info_key (isV2 utf8 : Bool) : M Str :=
  pbind (cond_if isV2 (beNat 2) (beNat 1)) fun len =>
  pbind (countP (cond_if utf8 (beNat 1) (leNat 2)) (if isV2 then len + 1 else len)) fun v =>
  ppure (if isV2 then v.dropLast else v)

/-- `info_normal` (src/main.rs lines 306-387): `n_blocks` records of
`(n_entries, head, tail, nb_compressed, nb_decompressed)`; the stored
`nb_compressed` excludes the 8 frame bytes (`nb_compressed - 8`, line 379). -/
def info_normal (isV2 utf8 : Bool) (nBlocks : Nat) : M (List KeyBlockInfo) :=
  countP
    (pbind (mdx_number isV2) fun ne =>
     pbind (info_key isV2 utf8) fun head =>
     pbind (info_key isV2 utf8) fun tail =>
     pbind (mdx_number isV2) fun nbc =>
     pbind (mdx_number isV2) fun nbd =>
     ppure ⟨ne, head, tail, nbc - 8, nbd⟩)
    nBlocks

/-- `key_block_info` (src/main.rs lines 264-407).  In v2 it reads a `u32_le`
(the magic, bound to `_` and never compared with anything), a `u32_le`
checksum, `nb_block_info - 8` bytes, deobfuscates and inflates them with
`unzip`, and runs `info_normal` on the result; in v1 it runs `info_normal`
directly on the input. -/
def key_block_info (ext : Ext) (meta : DictMeta) (header : KeyBlockHeader) :
    M (List KeyBlockInfo) :=
  if is_ver2 meta then
    pbind (leNat 4) fun _magic =>
    pbind (leNat 4) fun checksum =>
    pbind (countP readByte (header.nb_block_info - 8)) fun data =>
    pbind (fun in_ =>
      match unzip ext data checksum with
      | some o => .ok in_ o
      | none => .err) fun input =>
    subParse (info_normal (is_ver2 meta) (is_utf8 meta) header.n_blocks) input
  else
    info_normal (is_ver2 meta) (is_utf8 meta) header.n_blocks

/-- `ContentBlockType` (src/main.rs lines 409-414, src/mdict.rs lines
197-203). -/
inductive ContentBlockType where
  | unCompressed
  | lzo
  | zlib
deriving DecidableEq

/-- The type field of `content_block` (src/main.rs lines 430-437): `u32_le`,
then the match whose wildcard arm is `panic!("{} Unknown ContentBlockType", v)`. -/
def content_block_type : M ContentBlockType := fun in_ =>
  match leNat 4 in_ with
  | .ok rest v =>
      if v = 0 then .ok rest .unCompressed
      else if v = 1 then .ok rest .lzo
      else if v = 2 then .ok rest .zlib
      else .panic v
  | .err => .err
  | .panic n => .panic n

/-- `content_block` (src/main.rs lines 423-464): type, `u32_le` checksum
(never verified), `nb_compressed` payload bytes, then dispatch: zlib inflate,
raw payload, or LZO decompression to `nb_decompressed`.  No size ceiling is
applied anywhere. -/
def content_block (ext : Ext) (nb_compressed nb_decompressed : Nat) : M Bytes :=
  pbind content_block_type fun bt =>
  pbind (leNat 4) fun _checksum =>
  pbind (readN nb_compressed) fun data =>
  fun in_ =>
    match bt with
    | .zlib =>
        match ext.zlibInflate data with
        | some o => .ok in_ o
        | none => .err
    | .unCompressed => .ok in_ data
    | .lzo =>
        match ext.lzoDecompress data nb_decompressed with
        | some o => .ok in_ o
        | none => .err

/-- `key_entry` (src/main.rs lines 222-234): `(record_offset, headword)`. -/
def key_entry (isV2 utf8 : Bool) : M (Nat × Str) :=
  pbind (mdx_number isV2) fun off =>
  pbind (mdx_string utf8) fun hw =>
  ppure (off, hw)

/-- The per-block loop of `key_block` (src/main.rs lines 238-248): for each
`KeyBlockInfo`, decode the content block, parse exactly `n_entries` key
entries from the decompressed buffer, and insert them all into the key map. -/
def key_block_loop (ext : Ext) (isV2 utf8 : Bool) :
    List KeyBlockInfo → KeyMap → M KeyMap
  | [], km => ppure km
  | info :: rest, km =>
      pbind (content_block ext info.nb_compressed info.nb_decompressed) fun data =>
      pbind (subParse (countP (key_entry isV2 utf8) info.n_entries) data) fun entries =>
      key_block_loop ext isV2 utf8 rest (keymapInsertAll km entries)

/-- `key_block` (src/main.rs lines 196-251): header, info directory, then the
content-block loop starting from an empty key map. -/
def key_block (ext : Ext) (meta : DictMeta) : M KeyMap :=
  pbind (key_block_header (is_ver2 meta)) fun header =>
  pbind (key_block_info ext meta header) fun infos =>
  key_block_loop ext (is_ver2 meta) (is_utf8 meta) infos []

/-- `dict_meta` (src/main.rs lines 115-122): `be_u32` length, `length/2`
`le_u16` units, `le_u32` checksum; then UTF-16 decode + quick_xml
deserialization (abstracted as `ext.deXml`, `none` = error). -/
def dict_meta (ext : Ext) : M DictMeta :=
  pbind (beNat 4) fun n =>
  pbind (countP (leNat 2) (n / 2)) fun units =>
  pbind (leNat 4) fun _checksum =>
  fun in_ =>
    match ext.deXml units with
    | some m => .ok in_ m
    | none => .err

/-- `Mdx` (src/main.rs lines 147-151): the value produced by the top-level
parse — a metadata record and the key map, nothing else. -/
structure Mdx where
  dict_meta : DictMeta
  keymap : KeyMap
deriving DecidableEq

/-- `parse` (src/main.rs lines 466-471): metadata phase, then key-block
phase; there is no record phase. -/
def parse (ext : Ext) : M Mdx :=
  pbind (dict_meta ext) fun meta =>
  pbind (key_block ext meta) fun keymap =>
  ppure ⟨meta, keymap⟩

/-- `MdxKeyBlockInfoItem` (src/mdict.rs lines 135-140). -/
structure MdxKeyBlockInfoItem where
  n_entries : Nat
  nb_compressed : Nat
  nb_decompressed : Nat
deriving DecidableEq

/-- The binread `ContentBlockType` read (src/mdict.rs lines 197-203):
`#[br(little, repr = u32)]`; an unmatched value is a binread error (no
variant matches), not a panic. -/
def mdict_content_type : M ContentBlockType := fun in_ =>
  match leNat 4 in_ with
  | .ok rest v =>
      if v = 0 then .ok rest .unCompressed
      else if v = 1 then .ok rest .lzo
      else if v = 2 then .ok rest .zlib
      else .err
  | .err => .err
  | .panic n => .panic n

/-- `parse_content_block` (src/mdict.rs lines 215-231): zlib-inflate
`nb_compressed` bytes; the `UnCompressed` and `LZO` arms are `todo!()`
(a panic). -/
def parse_content_block (ext : Ext) (bt : ContentBlockType)
    (nb_compressed _nb_decompressed : Nat) : M Bytes :=
  match bt with
  | .zlib =>
      pbind (readN nb_compressed) fun data =>
      fun in_ =>
        match ext.zlibInflate data with
        | some o => .ok in_ o
        | none => .err
  | .unCompressed => fun _ => .panic 0
  | .lzo => fun _ => .panic 0

/-- `MdxContentBlock` (src/mdict.rs lines 205-213): type, `u32_le` checksum,
then `parse_content_block` over `nb_compressed - 8` bytes. -/
def mdx_content_block (ext : Ext) (nb_compressed nb_decompressed : Nat) : M Bytes :=
  pbind mdict_content_type fun bt =>
  pbind (leNat 4) fun _checksum =>
  parse_content_block ext bt (nb_compressed - 8) nb_decompressed

/-- `MdxKeyItem` (src/mdict.rs lines 233-238): `u64_be` id, then a binread
`NullString`. -/
def mdx_key_item : M (Nat × Str) :=
  pbind (beNat 8) fun id =>
  pbind (fun in_ => mtn8 in_) fun text =>
  ppure (id, text)

/-- `parse_key_entries` (src/mdict.rs lines 240-257): for each info item,
read its content block and then `for _ in 1..item.n_entries` — i.e. parse
`n_entries - 1` key items (dropping one) — inserting each into the map. -/
def parse_key_entries (ext : Ext) :
    List MdxKeyBlockInfoItem → KeyMap → M KeyMap
  | [], km => ppure km
  | item :: rest, km =>
      pbind (mdx_content_block ext item.nb_compressed item.nb_decompressed) fun data =>
      pbind (subParse (countP mdx_key_item (item.n_entries - 1)) data) fun entries =>
      parse_key_entries ext rest (keymapInsertAll km entries)

/-- One info record of `parse_key_block_info` (src/mdict.rs lines 177-192):
`u64_be n_entries`, `u16_be` head length then a seek over `head + 1` bytes,
likewise for tail, then `u64_be nb_compressed` and `u64_be nb_decompressed`. -/
def mdx_info_item : M MdxKeyBlockInfoItem :=
  pbind (beNat 8) fun ne =>
  pbind (beNat 2) fun head =>
  pbind (readN (head + 1)) fun _ =>
  pbind (beNat 2) fun tail =>
  pbind (readN (tail + 1)) fun _ =>
  pbind (beNat 8) fun nbc =>
  pbind (beNat 8) fun nbd =>
  ppure ⟨ne, nbc, nbd⟩

/-- `parse_key_block_info` (src/mdict.rs lines 142-195): the same RIPEMD128
XOR/nibble-swap deobfuscation and zlib inflate as `unzip`, then `n_blocks`
info records from the inflated buffer. -/
def mdict_parse_key_block_info (ext : Ext) (input : Bytes) (n_blocks checksum : Nat) :
    Option (List MdxKeyBlockInfoItem) :=
  let key := ext.ripemd128 (u32le checksum ++ u32le 0x3695)
  match ext.zlibInflate (deobAux key 0x36 0 input) with
  | none => none
  | some data =>
      match countP mdx_info_item n_blocks data with
      | .ok _ items => some items
      | _ => none

/-- The part of `MdxKeyBlockInfo` after the magic (src/mdict.rs lines
128-133): the `u32_le` checksum, `nb_info - 8` bytes, and
`parse_key_block_info`. -/
def mdx_key_block_info_body (ext : Ext) (nb_info n_blocks : Nat) :
    M (List MdxKeyBlockInfoItem) :=
  pbind (leNat 4) fun checksum =>
  pbind (countP readByte (nb_info - 8)) fun data =>
  fun in2 =>
    match mdict_parse_key_block_info ext data n_blocks checksum with
    | some items => .ok in2 items
    | none => .err

/-- `MdxKeyBlockInfo` (src/mdict.rs lines 125-133): `#[br(magic = 0x2u32)]`
— binread reads the leading `u32` and fails with a bad-magic error when it
is not 2 — then the body above. -/
def mdx_key_block_info (ext : Ext) (nb_info n_blocks : Nat) :
    M (List MdxKeyBlockInfoItem) :=
  pbind (leNat 4) fun magic =>
  if magic = 2 then mdx_key_block_info_body ext nb_info n_blocks
  else fun _ => .err

/-- The `find` loop of `MdxRecordBlock::record` (src/mdict.rs lines 279-289):
walk the decompressed record blocks, decrementing `pos` by each block's
length while `pos > len`; yields the selected block and the local position
(`none` models the `.unwrap()` panic when no block is selected). -/
def record_find : List Bytes → Nat → Option (Bytes × Nat)
  | [], _ => none
  | data :: rest, pos =>
      if pos > data.length then record_find rest (pos - data.length)
      else some (data, pos)

/-- `MdxRecordBlock::record` (src/mdict.rs lines 275-303): in the selected
block, skip the local position and take bytes while they are non-null.  The
final `str::from_utf8 .. unwrap_or_default` decode is modelled as the byte
sequence itself. -/
def record (blocks : List Bytes) (pos : Nat) : Option Bytes :=
  match record_find blocks pos with
  | some (data, p) => some ((data.drop p).takeWhile (fun b => b != 0))
  | none => none

/-- Rust `str::contains` on the byte model: `pat` occurs contiguously in
`hay`. -/
def contains_sub (hay pat : Bytes) : Bool :=
  (List.range (hay.length + 1)).any fun i => pat.isPrefixOf (hay.drop i)

/-- `Mdx::search` (src/mdict.rs lines 47-56): filter the key-map iteration by
substring containment and pair each surviving headword with its record. -/
def search (km : KeyMap) (blocks : List Bytes) (text : Bytes) :
    List (Str × Option Bytes) :=
  (km.filter fun item => contains_sub item.1 text).map
    fun item => (item.1, record blocks item.2)

/-!  Spec-side definitions (named from the specification's words, for the
refinement-style comparisons; each is compared against a source-translated
definition above). -/

/-- Spec: the record offset of the last occurrence of headword `k` in the
parsed entry list (entries are `(record_offset, headword)`). -/
def specLastOffset (entries : List (Nat × Str)) (k : Str) : Option Nat :=
  (entries.reverse.find? fun e => decide (e.2 = k)).map (fun e => e.1)

/-- Spec: sum of the decompressed lengths of the first `j` record blocks. -/
def prefixSumLen (blocks : List Bytes) (j : Nat) : Nat :=
  ((blocks.take j).map List.length).sum

/-- Spec-amended owning-block rule: the first block index whose running
decompressed-size prefix sum is ≥ the offset. -/
def firstIdxGe (blocks : List Bytes) (pos : Nat) : Option Nat :=
  (List.range blocks.length).find? fun j => decide (pos ≤ prefixSumLen blocks (j + 1))

/-- Spec (claim C5 wording): the first block index whose running
decompressed-size prefix sum strictly exceeds the offset. -/
def firstIdxGt (blocks : List Bytes) (pos : Nat) : Option Nat :=
  (List.range blocks.length).find? fun j => decide (pos < prefixSumLen blocks (j + 1))

/-- Spec: strip a trailing null byte. -/
def dropTrailingNull (b : Bytes) : Bytes :=
  match b.getLast? with
  | some 0 => b.dropLast
  | _ => b

/-- Spec (claim C5 wording): the article for `offset` with successor
`offset_next` is the byte range `[offset, offset_next)` of the virtual
concatenation of all decompressed record blocks, stripped of a trailing
null. -/
def specArticle (blocks : List Bytes) (off offNext : Nat) : Bytes :=
  dropTrailingNull (((blocks.flatten).drop off).take (offNext - off))

/-!  Concrete fixtures used by witnesses and counterexamples. -/

/-- A v2 UTF-8 metadata record (`RequiredEngineVersion = 2.0`). -/
def metaV2 : DictMeta :=
  ⟨2, 2, [], [], none, [48], none, [], [], utf8Lit, none, [], [], [], [], []⟩

/-- Concrete externals: a constant 16-byte RIPEMD128, an inflate that yields
the empty buffer, no LZO, and XML deserialization yielding `metaV2`. -/
def ext0 : Ext :=
  ⟨fun _ => List.replicate 16 0, fun _ => some [], fun _ _ => none, fun _ => some metaV2⟩

/-- Concrete externals with `ripemd128 = range 16` (16 distinct key bytes). -/
def c2ext : Ext :=
  ⟨fun _ => List.range 16, fun _ => none, fun _ _ => none, fun _ => none⟩

/-- Decompressed key-block buffer with exactly two entries:
`(0, "a")` and `(8, "b")` (`u64_be` offset, then a null-terminated string). -/
def c1block : Bytes :=
  [0, 0, 0, 0, 0, 0, 0, 0, 97, 0, 0, 0, 0, 0, 0, 0, 0, 8, 98, 0]

/-- Concrete externals whose inflate yields `c1block`. -/
def c1ext : Ext :=
  ⟨fun _ => [], fun _ => some c1block, fun _ _ => none, fun _ => none⟩

/-- A complete metadata section plus key-block section for `metaV2`:
empty XML (`ext0.deXml` ignores it), a key-block header declaring zero key
blocks (`nb_block_info = 8`, so the info section is just magic + checksum). -/
def c3front : Bytes :=
  [0, 0, 0, 0] ++ [0, 0, 0, 0] ++
  (List.replicate 8 0 ++ List.replicate 8 0 ++ List.replicate 8 0 ++
   [0, 0, 0, 0, 0, 0, 0, 8] ++ List.replicate 8 0 ++ [0, 0, 0, 0] ++
   [2, 0, 0, 0] ++ [0, 0, 0, 0])

/-- Bytes standing for the record-index section that follows the key section. -/
def c3record : Bytes := [9, 9, 9]

/-- Key-block header declaring zero key blocks with `nb_block_info = 8`. -/
def c8hdr : KeyBlockHeader := ⟨0, 0, some 0, 8, 0, some 0⟩

/-!  Helper lemmas. -/

theorem list_len4 (l : Bytes) (h : l.length = 4) :
    ∃ a b c d, l = [a, b, c, d] := by
  rcases l with _ | ⟨a, l⟩
  · simp at h
  rcases l with _ | ⟨b, l⟩
  · simp at h
  rcases l with _ | ⟨c, l⟩
  · simp at h
  rcases l with _ | ⟨d, l⟩
  · simp at h
  rcases l with _ | ⟨e, l⟩
  · exact ⟨a, b, c, d, rfl⟩
  · simp at h

theorem list_len8 (l : Bytes) (h : l.length = 8) :
    ∃ a b c d e f g k, l = [a, b, c, d, e, f, g, k] := by
  rcases l with _ | ⟨a, l⟩
  · simp at h
  rcases l with _ | ⟨b, l⟩
  · simp at h
  rcases l with _ | ⟨c, l⟩
  · simp at h
  rcases l with _ | ⟨d, l⟩
  · simp at h
  rcases l with _ | ⟨e, l⟩
  · simp at h
  rcases l with _ | ⟨f, l⟩
  · simp at h
  rcases l with _ | ⟨g, l⟩
  · simp at h
  rcases l with _ | ⟨k, l⟩
  · simp at h
  rcases l with _ | ⟨m, l⟩
  · exact ⟨a, b, c, d, e, f, g, k, rfl⟩
  · simp at h

theorem readN_append (bs rest : Bytes) :
    readN bs.length (bs ++ rest) = .ok rest bs := by
  induction bs with
  | nil => rfl
  | cons b t ih => simp [readN, pbind, readByte, ppure, List.cons_append, ih]

theorem deobAux_get? (key : Bytes) :
    ∀ (c : Bytes) (prev i j : Nat),
      (deobAux key prev i c).get? j =
        (c.get? j).map (fun b =>
          (((nibbleSwap b) ^^^ (if j = 0 then prev else c.getD (j - 1) 0) ^^^
            ((i + j) % 256)) ^^^ key.getD ((i + j) % key.length) 0)) := by
  intro c
  induction c with
  | nil => intro prev i j; simp [deobAux]
  | cons b rest ih =>
      intro prev i j
      cases j with
      | zero => simp [deobAux]
      | succ j' =>
          have step : (deobAux key prev i (b :: rest)).get? (j' + 1) =
              (deobAux key b (i + 1) rest).get? j' := rfl
          rw [step, ih b (i + 1) j']
          cases hg : rest.get? j' with
          | none =>
              rw [List.get?_eq_getElem?] at hg
              simp [hg]
          | some x =>
              rw [List.get?_eq_getElem?] at hg
              have harith : i + 1 + j' = i + (j' + 1) := by omega
              cases j' with
              | zero => simp [hg, harith]
              | succ j'' => simp [hg, harith]

theorem lookup_insert (m : KeyMap) (k' : Str) (v : Nat) (k : Str) :
    lookupKm (keymapInsert m k' v) k = if k' = k then some v else lookupKm m k := by
  induction m with
  | nil => simp [keymapInsert, lookupKm]
  | cons e rest ih =>
      by_cases he : e.1 = k'
      · simp only [keymapInsert, if_pos he, lookupKm]
        by_cases hk : k' = k
        · simp [hk]
        · have : ¬ e.1 = k := fun h => hk (he ▸ h)
          simp [hk, lookupKm, this]
      · simp only [keymapInsert, if_neg he, lookupKm]
        by_cases hek : e.1 = k
        · have : ¬ k' = k := fun h => he (by rw [hek, h])
          simp [hek, this]
        · simp [hek, ih]

theorem findq_append {α : Type} (l1 l2 : List α) (p : α → Bool) :
    (l1 ++ l2).find? p =
      match l1.find? p with
      | some x => some x
      | none => l2.find? p := by
  induction l1 with
  | nil => simp
  | cons a t ih => cases h : p a <;> simp [List.find?, h, ih]

theorem specLastOffset_cons (e : Nat × Str) (rest : List (Nat × Str)) (k : Str) :
    specLastOffset (e :: rest) k =
      match specLastOffset rest k with
      | some v => some v
      | none => if e.2 = k then some e.1 else none := by
  unfold specLastOffset
  rw [List.reverse_cons, findq_append]
  cases h : rest.reverse.find? (fun x => decide (x.2 = k)) with
  | some x => simp [h]
  | none =>
      by_cases he : e.2 = k <;> simp [h, List.find?, he]

theorem lookup_insertAll (es : List (Nat × Str)) :
    ∀ (m : KeyMap) (k : Str),
      lookupKm (keymapInsertAll m es) k =
        match specLastOffset es k with
        | some v => some v
        | none => lookupKm m k := by
  induction es with
  | nil => intro m k; simp [keymapInsertAll, specLastOffset]
  | cons e rest ih =>
      intro m k
      have hstep : keymapInsertAll m (e :: rest) =
          keymapInsertAll (keymapInsert m e.2 e.1) rest := rfl
      rw [hstep, ih, specLastOffset_cons, lookup_insert]
      cases specLastOffset rest k with
      | some v => simp
      | none => by_cases he : e.2 = k <;> simp [he]

theorem mem_insert (m : KeyMap) (k : Str) (v : Nat) (x : Str × Nat)
    (h : x ∈ keymapInsert m k v) : x ∈ m ∨ x = (k, v) := by
  induction m with
  | nil => simp [keymapInsert] at h; simp [h]
  | cons e rest ih =>
      by_cases he : e.1 = k
      · rw [keymapInsert, if_pos he] at h
        rcases List.mem_cons.mp h with h1 | h1
        · exact Or.inr h1
        · exact Or.inl (List.mem_cons_of_mem e h1)
      · rw [keymapInsert, if_neg he] at h
        rcases List.mem_cons.mp h with h1 | h1
        · exact Or.inl (h1 ▸ List.mem_cons_self e rest)
        · rcases ih h1 with h2 | h2
          · exact Or.inl (List.mem_cons_of_mem e h2)
          · exact Or.inr h2

theorem pairwise_insert (m : KeyMap) (k : Str) (v : Nat)
    (h : m.Pairwise (fun a b => a.1 ≠ b.1)) :
    (keymapInsert m k v).Pairwise (fun a b => a.1 ≠ b.1) := by
  induction m with
  | nil => simp [keymapInsert]
  | cons e rest ih =>
      rcases List.pairwise_cons.mp h with ⟨h1, h2⟩
      by_cases he : e.1 = k
      · rw [keymapInsert, if_pos he]
        refine List.pairwise_cons.mpr ⟨?_, h2⟩
        intro b hb
        exact he ▸ h1 b hb
      · rw [keymapInsert, if_neg he]
        refine List.pairwise_cons.mpr ⟨?_, ih h2⟩
        intro b hb
        rcases mem_insert rest k v b hb with h3 | h3
        · exact h1 b h3
        · rw [h3]; exact he

theorem pairwise_insertAll (es : List (Nat × Str)) :
    ∀ (m : KeyMap), m.Pairwise (fun a b => a.1 ≠ b.1) →
      (keymapInsertAll m es).Pairwise (fun a b => a.1 ≠ b.1) := by
  induction es with
  | nil => intro m h; exact h
  | cons e rest ih =>
      intro m h
      exact ih (keymapInsert m e.2 e.1) (pairwise_insert m e.2 e.1 h)

theorem findq_map {α β : Type} (f : β → α) (l : List β) (p : α → Bool) :
    (l.map f).find? p = (l.find? (fun x => p (f x))).map f := by
  induction l with
  | nil => simp
  | cons a t ih => cases h : p (f a) <;> simp [List.find?, h, ih]

theorem prefixSumLen_zero (blocks : List Bytes) : prefixSumLen blocks 0 = 0 := rfl

theorem prefixSumLen_cons (d : Bytes) (rest : List Bytes) (j : Nat) :
    prefixSumLen (d :: rest) (j + 1) = d.length + prefixSumLen rest j := by
  simp [prefixSumLen, List.take_succ_cons]

theorem record_find_eq (blocks : List Bytes) :
    ∀ pos, record_find blocks pos =
      (firstIdxGe blocks pos).map
        (fun j => (blocks.getD j [], pos - prefixSumLen blocks j)) := by
  induction blocks with
  | nil => intro pos; simp [record_find, firstIdxGe]
  | cons d rest ih =>
      intro pos
      have hrange : List.range ((d :: rest).length) =
          0 :: (List.range rest.length).map Nat.succ := by
        rw [List.length_cons, List.range_succ_eq_map]
      by_cases hp : d.length < pos
      · have hp0 : decide (pos ≤ prefixSumLen (d :: rest) (0 + 1)) = false := by
          simp only [prefixSumLen_cons, prefixSumLen_zero, decide_eq_false_iff_not]
          omega
        have hl : record_find (d :: rest) pos = record_find rest (pos - d.length) := by
          simp only [record_find]
          rw [if_pos hp]
        have hfind : firstIdxGe (d :: rest) pos =
            (firstIdxGe rest (pos - d.length)).map Nat.succ := by
          rw [firstIdxGe, hrange]
          rw [List.find?_cons]
          simp only [hp0]
          rw [findq_map]
          have hpq : (fun x => decide (pos ≤ prefixSumLen (d :: rest) (Nat.succ x + 1))) =
              (fun x => decide (pos - d.length ≤ prefixSumLen rest (x + 1))) := by
            funext x
            simp only [Nat.succ_eq_add_one, prefixSumLen_cons]
            rw [decide_eq_decide]
            omega
          rw [hpq]
          rfl
        rw [hl, ih (pos - d.length), hfind]
        cases hf : firstIdxGe rest (pos - d.length) with
        | none => simp
        | some j => simp [prefixSumLen_cons, Nat.sub_sub]
      · have hp0 : decide (pos ≤ prefixSumLen (d :: rest) (0 + 1)) = true := by
          simp only [prefixSumLen_cons, prefixSumLen_zero, decide_eq_true_eq]
          omega
        have hl : record_find (d :: rest) pos = some (d, pos) := by
          simp only [record_find]
          rw [if_neg hp]
        have hfind : firstIdxGe (d :: rest) pos = some 0 := by
          rw [firstIdxGe, hrange]
          rw [List.find?_cons]
          simp only [hp0]
        rw [hl, hfind]
        simp [prefixSumLen_zero]

theorem pbind_eq_ok {α β : Type} (p : M α) (f : α → M β) (in_ rest : Bytes) (v : β)
    (h : pbind p f in_ = .ok rest v) :
    ∃ mid a, p in_ = .ok mid a ∧ f a mid = .ok rest v := by
  unfold pbind at h
  rcases hp : p in_ with ⟨m, a⟩ | _ | n <;> rw [hp] at h
  · exact ⟨m, a, rfl, h⟩
  · exact absurd h (by simp)
  · exact absurd h (by simp)

/-!  Claim theorems. -/

/-- C1 (code bug evidence): the decompressed key block `c1block` contains
exactly two well-formed `(record_offset, headword)` entries, `(0, "a")` and
`(8, "b")` (first conjunct); yet `parse_key_entries` (src/mdict.rs lines
240-257), run on a block whose `KeyBlockInfo` declares `n_entries = 2`,
returns a key map containing only the first entry — its loop
`for _ in 1..item.n_entries` parses `n_entries - 1` entries, dropping the
last, contradicting the claim (and spec) that exactly `n_entries` pairs are
parsed, skipping none.  (`key_block` in src/main.rs, `count(key_entry(meta),
item.n_entries)`, does parse all `n_entries`.) -/
theorem c1_skip_eval :
    countP mdx_key_item 2 c1block = .ok [] [(0, [97]), (8, [98])]
    ∧ parse_key_entries c1ext [⟨2, 8, 20⟩] [] [2, 0, 0, 0, 0, 0, 0, 0] =
        .ok [] [([97], 0)] :=
  ⟨rfl, rfl⟩

/-- C2: the v2 key-block-info deobfuscator (`unzip`, src/main.rs lines
269-304; the same loop at src/mdict.rs lines 142-171) computes the key as
RIPEMD128 of `u32_le(info_checksum) || u32_le(0x3695)` and zlib-inflates the
deobfuscated stream (first conjunct), and every output byte `P[i]` equals
`nibbleswap(C[i]) XOR prev XOR (i AND 0xFF) XOR K[i mod 16]`, with `prev`
seeded to 0x36 and equal to the ciphertext byte `C[i-1]` thereafter (second
conjunct). -/
theorem c2_deobfuscation (ext : Ext) (checksum : Nat) (c : Bytes)
    (hk : (ext.ripemd128 (u32le checksum ++ u32le 0x3695)).length = 16) :
    unzip ext c checksum =
      ext.zlibInflate (deobAux (ext.ripemd128 (u32le checksum ++ u32le 0x3695)) 0x36 0 c)
    ∧ ∀ i, i < c.length →
        (deobAux (ext.ripemd128 (u32le checksum ++ u32le 0x3695)) 0x36 0 c).get? i =
          some ((((nibbleSwap (c.getD i 0)) ^^^ (if i = 0 then 0x36 else c.getD (i - 1) 0) ^^^
            (i % 256)) ^^^ (ext.ripemd128 (u32le checksum ++ u32le 0x3695)).getD (i % 16) 0)) := by
  constructor
  · rfl
  · intro i hi
    rw [deobAux_get?]
    have h1 : c.get? i = some (c.getD i 0) := by
      rw [List.getD_eq_getElem?_getD, List.get?_eq_getElem?, List.getElem?_eq_getElem hi]
      rfl
    rw [h1, Option.map_some', hk]
    simp

/-- C2 witness: the deobfuscation characterization at a concrete 16-byte key
and 2-byte ciphertext. -/
theorem c2_deobfuscation_witness :
    unzip c2ext [171, 205] 5 =
      c2ext.zlibInflate (deobAux (c2ext.ripemd128 (u32le 5 ++ u32le 0x3695)) 0x36 0 [171, 205])
    ∧ (deobAux (c2ext.ripemd128 (u32le 5 ++ u32le 0x3695)) 0x36 0 [171, 205]).get? 1 =
        some ((((nibbleSwap (([171, 205] : Bytes).getD 1 0)) ^^^
          (if (1 : Nat) = 0 then 0x36 else ([171, 205] : Bytes).getD (1 - 1) 0) ^^^
          (1 % 256)) ^^^ (c2ext.ripemd128 (u32le 5 ++ u32le 0x3695)).getD (1 % 16) 0)) :=
  ⟨(c2_deobfuscation c2ext 5 [171, 205] (by decide)).1,
   (c2_deobfuscation c2ext 5 [171, 205] (by decide)).2 1 (by decide)⟩

/-- C5 counterexample: with decompressed record blocks `[65,0]` and `[66,0]`
and offset 2 (a block boundary; successor offset 4), the claim demands the
byte range `[2,4)` of the virtual record space stripped of the trailing null
(`[66]`, the article "B"), with the owning block being the first whose prefix
sum strictly exceeds 2 (block 1); but `MdxRecordBlock::record` (src/mdict.rs
lines 275-303) selects block 0 (its `find` keeps a block already when
`pos ≤ len`) and returns the empty article. -/
theorem c5_counterexample :
    record [[65, 0], [66, 0]] 2 = some []
    ∧ specArticle [[65, 0], [66, 0]] 2 4 = [66]
    ∧ firstIdxGt [[65, 0], [66, 0]] 2 = some 1
    ∧ record_find [[65, 0], [66, 0]] 2 = some ([65, 0], 2)
    ∧ some ([] : Bytes) ≠ some [66] := by
  refine ⟨rfl, rfl, by decide, rfl, by decide⟩

/-- C5 (amended): `MdxRecordBlock::record` locates the FIRST block whose
running decompressed-size prefix sum is ≥ the offset (not strictly greater),
and returns the bytes of that single block from the local offset up to the
first null byte in that block (not the byte range up to the next headword's
offset); `none` models the `unwrap` panic when the offset exceeds the whole
virtual space. -/
theorem c5_record_characterization (blocks : List Bytes) (pos : Nat) :
    record_find blocks pos =
      (firstIdxGe blocks pos).map
        (fun j => (blocks.getD j [], pos - prefixSumLen blocks j))
    ∧ record blocks pos =
        (firstIdxGe blocks pos).map
          (fun j => ((blocks.getD j []).drop (pos - prefixSumLen blocks j)).takeWhile
            (fun b => b != 0)) := by
  refine ⟨record_find_eq blocks pos, ?_⟩
  rw [record, record_find_eq blocks pos]
  cases firstIdxGe blocks pos with
  | none => rfl
  | some j => rfl

/-- C6 counterexample: the key map is keyed by headword, so a file whose key
entries are `(0,"a")` and `(8,"a")` yields a map with a single surviving
pair `("a",8)`; no iteration of it can yield every headword of the file (two
occurrences) in file order — the claimed `entries()` behavior is impossible,
independently of the hash map's (unspecified) iteration order. -/
theorem c6_counterexample :
    keymapInsertAll [] [(0, [97]), (8, [97])] = [([97], 8)]
    ∧ (keymapInsertAll [] [(0, [97]), (8, [97])]).length ≠
        ([(0, [97]), (8, [97])] : List (Nat × Str)).length := by
  refine ⟨rfl, by decide⟩

/-- C6 (amended): `Mdx::search` (src/mdict.rs lines 47-56) yields exactly the
key-map iteration filtered by substring containment, preserving the map's
iteration order (which is the hash map's unspecified order, not file order)
and applying no ranking: the headwords it returns are the iterated headwords
satisfying the substring test, in iteration order. -/
theorem c6_search_filter (km : KeyMap) (blocks : List Bytes) (text : Bytes) :
    (search km blocks text).map Prod.fst =
      (km.map Prod.fst).filter (fun h => contains_sub h text) := by
  unfold search
  induction km with
  | nil => rfl
  | cons e t ih =>
      cases h : contains_sub e.1 text <;>
        simp [List.filter_cons, h, ih]

/-- C10: the parsed key mapping is keyed by headword — after inserting all
parsed `(record_offset, headword)` entries in parse order (the
`keymap.insert(entry.1, entry.0)` loop of both parsers), the map's keys are
pairwise distinct (one binding per distinct headword) and every lookup
returns the record offset of the LAST occurrence of that headword in parse
order (earlier occurrences are silently overwritten); absent headwords map to
nothing. -/
theorem c10_last_wins (entries : List (Nat × Str)) (k : Str) :
    (keymapInsertAll [] entries).Pairwise (fun a b => a.1 ≠ b.1)
    ∧ lookupKm (keymapInsertAll [] entries) k = specLastOffset entries k := by
  constructor
  · exact pairwise_insertAll entries [] (List.Pairwise.nil)
  · rw [lookup_insertAll entries [] k]
    cases specLastOffset entries k with
    | none => rfl
    | some v => rfl

/-- C3 counterexample: the top-level `parse` (src/main.rs lines 466-471)
succeeds on a complete metadata + key-index input, returning a value holding
only the metadata record and the key map, and leaves the bytes standing for
the record-index section (`c3record`, nonempty) entirely unconsumed: contrary
to the claim, the successful parse performs no record phase and the resulting
value carries no record-block data with which to materialize articles. -/
theorem c3_counterexample :
    parse ext0 (c3front ++ c3record) = .ok c3record ⟨metaV2, []⟩
    ∧ c3record ≠ [] :=
  ⟨rfl, by decide⟩

/-- C3 (amended): the nom-based top-level `parse` performs exactly two
phases: every successful parse decomposes as the metadata phase followed by
the key-block phase on the remaining input, producing `Mdx {dict_meta,
keymap}`; whatever follows the key section (the record index) is left as the
unconsumed remainder.  (Only the unused binread `Mdx` in src/mdict.rs
declares a record phase.) -/
theorem c3_two_phase (ext : Ext) (in_ rest : Bytes) (out : Mdx)
    (h : parse ext in_ = .ok rest out) :
    ∃ mid, dict_meta ext in_ = .ok mid out.dict_meta
      ∧ key_block ext out.dict_meta mid = .ok rest out.keymap := by
  obtain ⟨mid, meta, hd, h2⟩ := pbind_eq_ok _ _ _ _ _ h
  obtain ⟨mid2, km, hk, h3⟩ := pbind_eq_ok _ _ _ _ _ h2
  unfold ppure at h3
  cases h3
  exact ⟨mid, hd, hk⟩

/-- C3 witness: the two-phase decomposition applied at the concrete input of
the counterexample. -/
theorem c3_two_phase_witness :
    ∃ mid, dict_meta ext0 (c3front ++ c3record) =
        .ok mid (Mdx.mk metaV2 []).dict_meta
      ∧ key_block ext0 (Mdx.mk metaV2 []).dict_meta mid =
          .ok c3record (Mdx.mk metaV2 []).keymap :=
  c3_two_phase ext0 (c3front ++ c3record) c3record ⟨metaV2, []⟩ rfl

/-- C4: `is_ver2` is `RequiredEngineVersion ≥ 2.0` (first conjunct), and the
key-block header (src/main.rs lines 197-216) reads, in order, `n_blocks`,
`n_entries`, `nb_decompressed`, `nb_block_info`, `nb_blocks` as `u64_be` plus
a trailing `u32_le` checksum when v2 (second conjunct), and reads the four
fields as `u32_be` with `nb_decompressed` and the checksum absent when v1
(third conjunct). -/
theorem c4_version_dispatch :
    (∀ m : DictMeta, is_ver2 m = true ↔ 2 ≤ m.required_engine_version)
    ∧ (∀ a b c d e f rest : Bytes, a.length = 8 → b.length = 8 → c.length = 8 →
        d.length = 8 → e.length = 8 → f.length = 4 →
        key_block_header true (a ++ (b ++ (c ++ (d ++ (e ++ (f ++ rest)))))) =
          .ok rest ⟨beVal a, beVal b, some (beVal c), beVal d, beVal e, some (leVal f)⟩)
    ∧ (∀ a b d e rest : Bytes, a.length = 4 → b.length = 4 → d.length = 4 →
        e.length = 4 →
        key_block_header false (a ++ (b ++ (d ++ (e ++ rest)))) =
          .ok rest ⟨beVal a, beVal b, none, beVal d, beVal e, none⟩) := by
  refine ⟨?_, ?_, ?_⟩
  · intro m; simp [is_ver2]
  · intro a b c d e f rest ha hb hc hd he hf
    obtain ⟨a0, a1, a2, a3, a4, a5, a6, a7, rfl⟩ := list_len8 a ha
    obtain ⟨b0, b1, b2, b3, b4, b5, b6, b7, rfl⟩ := list_len8 b hb
    obtain ⟨c0, c1, c2, c3, c4, c5, c6, c7, rfl⟩ := list_len8 c hc
    obtain ⟨d0, d1, d2, d3, d4, d5, d6, d7, rfl⟩ := list_len8 d hd
    obtain ⟨e0, e1, e2, e3, e4, e5, e6, e7, rfl⟩ := list_len8 e he
    obtain ⟨f0, f1, f2, f3, rfl⟩ := list_len4 f hf
    rfl
  · intro a b d e rest ha hb hd he
    obtain ⟨a0, a1, a2, a3, rfl⟩ := list_len4 a ha
    obtain ⟨b0, b1, b2, b3, rfl⟩ := list_len4 b hb
    obtain ⟨d0, d1, d2, d3, rfl⟩ := list_len4 d hd
    obtain ⟨e0, e1, e2, e3, rfl⟩ := list_len4 e he
    rfl

/-- C4 witness: the header characterization at concrete v2 and v1 inputs and
the `is_ver2` equivalence at `metaV2`. -/
theorem c4_version_dispatch_witness :
    (is_ver2 metaV2 = true ↔ 2 ≤ metaV2.required_engine_version)
    ∧ key_block_header true
        ([0, 0, 0, 0, 0, 0, 0, 1] ++ ([0, 0, 0, 0, 0, 0, 0, 2] ++
         ([0, 0, 0, 0, 0, 0, 0, 3] ++ ([0, 0, 0, 0, 0, 0, 0, 4] ++
         ([0, 0, 0, 0, 0, 0, 0, 5] ++ ([6, 0, 0, 0] ++ [7])))))) =
        .ok [7] ⟨beVal [0, 0, 0, 0, 0, 0, 0, 1], beVal [0, 0, 0, 0, 0, 0, 0, 2],
          some (beVal [0, 0, 0, 0, 0, 0, 0, 3]), beVal [0, 0, 0, 0, 0, 0, 0, 4],
          beVal [0, 0, 0, 0, 0, 0, 0, 5], some (leVal [6, 0, 0, 0])⟩
    ∧ key_block_header false
        ([0, 0, 0, 1] ++ ([0, 0, 0, 2] ++ ([0, 0, 0, 3] ++ ([0, 0, 0, 4] ++ [8])))) =
        .ok [8] ⟨beVal [0, 0, 0, 1], beVal [0, 0, 0, 2], none,
          beVal [0, 0, 0, 3], beVal [0, 0, 0, 4], none⟩ :=
  ⟨c4_version_dispatch.1 metaV2,
   c4_version_dispatch.2.1 _ _ _ _ _ _ _ rfl rfl rfl rfl rfl rfl,
   c4_version_dispatch.2.2 _ _ _ _ _ rfl rfl rfl rfl⟩

/-- C7 counterexample: on a frame whose `u32_le` type field is 3, the nom
`content_block` (src/main.rs lines 428-446) evaluates to a process abort —
the `panic!("{} Unknown ContentBlockType", v)` arm — carrying 3, and not to
an error result that would surface to the caller; the claim's "not a process
abort/panic" is false. -/
theorem c7_counterexample :
    content_block ext0 0 0 [3, 0, 0, 0] = .panic 3
    ∧ content_block ext0 0 0 [3, 0, 0, 0] ≠ .err :=
  ⟨rfl, by decide⟩

/-- C7 (amended): for every frame whose type field is not in {0,1,2}, the nom
parser aborts the process via `panic!` carrying the offending value, while
the binread parser (src/mdict.rs enum `ContentBlockType`) fails with an
ordinary binread error (no structured `UnknownBlockType` error exists in
either). -/
theorem c7_panic_behavior (ext : Ext) (t rest : Bytes) (nc nd : Nat)
    (ht : t.length = 4) (h0 : leVal t ≠ 0) (h1 : leVal t ≠ 1) (h2 : leVal t ≠ 2) :
    content_block ext nc nd (t ++ rest) = .panic (leVal t)
    ∧ mdx_content_block ext nc nd (t ++ rest) = .err := by
  obtain ⟨t0, t1, t2, t3, rfl⟩ := list_len4 t ht
  constructor
  · have hct : content_block_type ([t0, t1, t2, t3] ++ rest) =
        .panic (leVal [t0, t1, t2, t3]) := by
      show (if leVal [t0, t1, t2, t3] = 0 then PResult.ok rest ContentBlockType.unCompressed
            else if leVal [t0, t1, t2, t3] = 1 then PResult.ok rest ContentBlockType.lzo
            else if leVal [t0, t1, t2, t3] = 2 then PResult.ok rest ContentBlockType.zlib
            else PResult.panic (leVal [t0, t1, t2, t3])) =
          PResult.panic (leVal [t0, t1, t2, t3])
      rw [if_neg h0, if_neg h1, if_neg h2]
    unfold content_block pbind
    rw [hct]
  · have hct : mdict_content_type ([t0, t1, t2, t3] ++ rest) = .err := by
      show (if leVal [t0, t1, t2, t3] = 0 then PResult.ok rest ContentBlockType.unCompressed
            else if leVal [t0, t1, t2, t3] = 1 then PResult.ok rest ContentBlockType.lzo
            else if leVal [t0, t1, t2, t3] = 2 then PResult.ok rest ContentBlockType.zlib
            else PResult.err) = PResult.err
      rw [if_neg h0, if_neg h1, if_neg h2]
    unfold mdx_content_block pbind
    rw [hct]

/-- C7 witness: the panic/error dichotomy at a concrete type value 3. -/
theorem c7_panic_behavior_witness :
    content_block ext0 5 6 ([3, 0, 0, 0] ++ [1, 2]) = .panic (leVal [3, 0, 0, 0])
    ∧ mdx_content_block ext0 5 6 ([3, 0, 0, 0] ++ [1, 2]) = .err :=
  c7_panic_behavior ext0 [3, 0, 0, 0] [1, 2] 5 6 rfl (by decide) (by decide) (by decide)

/-- C8 counterexample: the nom `key_block_info` (src/main.rs lines 389-399)
succeeds on a v2 info section whose leading `u32_le` magic is 5 (≠ 2): the
magic is read into `_` and never compared, so the parse continues instead of
failing with any bad-magic error. -/
theorem c8_counterexample :
    key_block_info ext0 metaV2 c8hdr [5, 0, 0, 0, 7, 0, 0, 0] = .ok [] []
    ∧ leVal [5, 0, 0, 0] ≠ 2 :=
  ⟨rfl, by decide⟩

/-- C8 (amended): in v2 the nom parser's behavior is completely independent
of the magic word — replacing the four magic bytes by any others yields the
very same result (first conjunct) — while the binread `MdxKeyBlockInfo`
(src/mdict.rs line 127, `#[br(magic = 0x2u32)]`) does fail on every magic
value other than 2 (second conjunct). -/
theorem c8_magic_behavior :
    (∀ (ext : Ext) (meta : DictMeta) (header : KeyBlockHeader) (a b rest : Bytes),
      a.length = 4 → b.length = 4 → is_ver2 meta = true →
      key_block_info ext meta header (a ++ rest) =
        key_block_info ext meta header (b ++ rest))
    ∧ (∀ (ext : Ext) (nb_info n_blocks : Nat) (a rest : Bytes),
      a.length = 4 → leVal a ≠ 2 →
      mdx_key_block_info ext nb_info n_blocks (a ++ rest) = .err) := by
  constructor
  · intro ext meta header a b rest ha hb hv2
    obtain ⟨a0, a1, a2, a3, rfl⟩ := list_len4 a ha
    obtain ⟨b0, b1, b2, b3, rfl⟩ := list_len4 b hb
    unfold key_block_info
    rw [hv2]
    rfl
  · intro ext nb_info n_blocks a rest ha hm
    obtain ⟨a0, a1, a2, a3, rfl⟩ := list_len4 a ha
    have step : mdx_key_block_info ext nb_info n_blocks ([a0, a1, a2, a3] ++ rest) =
        (if leVal [a0, a1, a2, a3] = 2 then mdx_key_block_info_body ext nb_info n_blocks
         else fun _ => PResult.err) rest := rfl
    rw [step, if_neg hm]

/-- C8 witness: magic-independence of the nom parser between magics 5 and 2,
and the binread failure, at concrete inputs. -/
theorem c8_magic_behavior_witness :
    key_block_info ext0 metaV2 c8hdr ([5, 0, 0, 0] ++ [7, 0, 0, 0]) =
      key_block_info ext0 metaV2 c8hdr ([2, 0, 0, 0] ++ [7, 0, 0, 0])
    ∧ mdx_key_block_info ext0 8 0 ([5, 0, 0, 0] ++ [7, 0, 0, 0]) = .err :=
  ⟨c8_magic_behavior.1 ext0 metaV2 c8hdr [5, 0, 0, 0] [2, 0, 0, 0] [7, 0, 0, 0]
      rfl rfl (by decide),
   c8_magic_behavior.2 ext0 8 0 [5, 0, 0, 0] [7, 0, 0, 0] rfl (by decide)⟩

/-- C9 counterexample: a content-block frame declaring
`nb_decompressed = 2^40` (far above the claimed 64 MiB ceiling) is decoded
normally by `content_block` — it returns the block instead of rejecting the
file; no `SizeCeilingExceeded` error exists anywhere in the code. -/
theorem c9_counterexample :
    content_block ext0 1 1099511627776 [0, 0, 0, 0, 0, 0, 0, 0, 7] = .ok [] [7]
    ∧ content_block ext0 1 1099511627776 [0, 0, 0, 0, 0, 0, 0, 0, 7] ≠ .err :=
  ⟨rfl, by decide⟩

/-- C9 (amended): the decoder implements no size ceiling at all: for an
uncompressed frame the result is the payload itself, for every declared
`nb_decompressed` whatsoever (the value is quantified over and never
inspected), so arbitrarily large declared sizes are accepted rather than
rejected. -/
theorem c9_no_ceiling (ext : Ext) (c d rest : Bytes) (nd : Nat) (hc : c.length = 4) :
    content_block ext d.length nd ([0, 0, 0, 0] ++ (c ++ (d ++ rest))) = .ok rest d := by
  obtain ⟨c0, c1, c2, c3, rfl⟩ := list_len4 c hc
  have step : content_block ext d.length nd
      ([0, 0, 0, 0] ++ ([c0, c1, c2, c3] ++ (d ++ rest))) =
      pbind (readN d.length) (fun data => fun in_ => PResult.ok in_ data) (d ++ rest) := rfl
  rw [step]
  unfold pbind
  rw [readN_append]

/-- C9 witness: the no-ceiling theorem at `nb_decompressed = 2^40`. -/
theorem c9_no_ceiling_witness :
    content_block ext0 ([9] : Bytes).length 1099511627776
      ([0, 0, 0, 0] ++ ([1, 2, 3, 4] ++ ([9] ++ []))) = .ok [] [9] :=
  c9_no_ceiling ext0 [1, 2, 3, 4] [9] [] 1099511627776 rfl

end Mdict
